import Mathlib

/-! # rest.go: the resource dispatcher

A shallow embedding of `server.go` (package `rest`): the process-wide
`resources` map, the capability interfaces a resource value may satisfy, the
response helpers and `resourceHandler`, the one handler bound to every
registered prefix; and of `examples/snips/collection.go`, the in-memory
collection of the example server.

Modelling choices.

* A Go `string` is a byte sequence; here it is a `List Char`, one element per
  byte.  The only byte the handler inspects is `'/'`.
* Go `int` values are `Int`; every index of the handler is bounded by the
  length of a path, so no arithmetic wraps there.  The counter `nextId` of the
  collection is incremented without bound, so its increment goes through
  `wrapInt`.
* A run of the handler either panics (an out-of-range slice expression) or
  finishes with the list of effects it performed on the response writer and
  on the resource, in program order.
* The capability callbacks are the resource implementer's code; a call to one
  is recorded as an effect carrying the receiver and the arguments.
-/

namespace Rest

/-- Go `string`: a sequence of bytes. -/
abbrev Str := List Char

/-- The run-time panics the handler can raise. -/
inductive Panic where
  | sliceBounds
  | indexRange
  deriving DecidableEq, Repr

deriving instance DecidableEq for Except

/-! ## The pieces of the Go runtime and library the handler uses -/

/-- Whether `p` is an initial segment of `s` (`strings.HasPrefix(s, p)`). -/
def startsWith : Str → Str → Bool
  | _, [] => true
  | [], _ :: _ => false
  | c :: s, d :: p => c == d && startsWith s p

/-- Scan for `sep` in `s`, `i` being the offset of `s` in the original. -/
def indexFrom (sep : Str) : Str → Int → Int
  | [], i => if startsWith [] sep then i else -1
  | c :: s, i => if startsWith (c :: s) sep then i else indexFrom sep s (i + 1)

/-- Go `strings.Index(s, sep)`: the offset of the first occurrence of `sep`
in `s`, or `-1` when there is none. -/
def stringsIndex (s sep : Str) : Int := indexFrom sep s 0

/-- The slice expression `s[lo:hi]`: panics unless `0 ≤ lo ≤ hi ≤ len(s)`. -/
def slice (s : Str) (lo hi : Int) : Except Panic Str :=
  if 0 ≤ lo ∧ lo ≤ hi ∧ hi ≤ (s.length : Int) then
    Except.ok ((s.drop lo.toNat).take (hi.toNat - lo.toNat))
  else
    Except.error Panic.sliceBounds

/-- The slice expression `s[lo:]`, which is `s[lo:len(s)]`. -/
def sliceFrom (s : Str) (lo : Int) : Except Panic Str :=
  slice s lo (s.length : Int)

/-- Worker of `stringsSplit` for a non-empty separator: `skip` counts the
bytes of a separator still to be passed over, `cur` holds the bytes of the
current segment, last byte first. -/
def splitGo (sep : Str) : Nat → Str → Str → List Str
  | _, cur, [] => [cur.reverse]
  | skip + 1, cur, _ :: s => splitGo sep skip cur s
  | 0, cur, c :: s =>
    if startsWith (c :: s) sep then cur.reverse :: splitGo sep (sep.length - 1) [] s
    else splitGo sep 0 (c :: cur) s

/-- Go `strings.Split(s, sep)`: the substrings of `s` between the occurrences
of `sep`; with an empty `sep` the string is cut after every byte. -/
def stringsSplit (s sep : Str) : List Str :=
  if sep = [] then s.map (fun c => [c]) else splitGo sep 0 [] s

/-- The index expression `parts[i]` on a slice of strings. -/
def indexAt (parts : List Str) (i : Nat) : Except Panic Str :=
  match parts.get? i with
  | some p => Except.ok p
  | none => Except.error Panic.indexRange

/-- Go `strings.Join(parts, sep)`: the elements of `parts` with `sep` between
them. -/
def stringsJoin : List Str → Str → Str
  | [], _ => []
  | [a], _ => a
  | a :: b :: rest, sep => a ++ sep ++ stringsJoin (b :: rest) sep

example : stringsJoin ["42".toList, "".toList] "/".toList = "42/".toList := by decide
example : stringsIndex "snips/42".toList "/".toList = 5 := by decide
example : stringsIndex "snips".toList "/".toList = -1 := by decide
example : stringsSplit "42/publish/now".toList "/".toList
    = ["42".toList, "publish".toList, "now".toList] := by decide
example : stringsSplit "/publish".toList "/".toList = ["".toList, "publish".toList] := by decide
example : stringsSplit "a--b-".toList "--".toList = ["a".toList, "b-".toList] := by decide
example : slice "/snips".toList 1 0 = Except.error Panic.sliceBounds := by decide
example : sliceFrom "/snips/42".toList 7 = Except.ok "42".toList := by decide

/-! ## Data model -/

/-- Go `url.Values`, the parsed form. -/
abbrev Values := List (Str × List Str)

/-- Go `http.Header`. -/
abbrev Header := List (Str × List Str)

/-- The fields of `*http.Request` the handler reads.  `ParseForm` is what
`req.ParseForm()` yields on this request: the error text (`err.String()`), or
the form the call leaves in `req.Form`. -/
structure Request where
  Method : Str
  Path : Str
  Header : Header
  ParseForm : Except Str Values
  deriving DecidableEq

/-- A non-nil resource value, seen through the interfaces the handler probes:
one flag per interface of `server.go`, true when the value's method set
satisfies it.  `ident` tells values apart.  (Interface `operations` is
declared in the source and probed nowhere.) -/
structure Res where
  ident : Nat
  index : Bool
  informed_index : Bool
  create : Bool
  find : Bool
  informed_find : Bool
  update : Bool
  action : Bool
  delete : Bool
  options : Bool
  deriving DecidableEq

/-- A call of a capability method, with the arguments after the response
writer. -/
inductive Call where
  | Index
  | IndexInformed (form : Values) (header : Header)
  | Create (req : Request)
  | Find (id : Str)
  | FindInformed (id : Str) (form : Values) (header : Header)
  | Act (parts : List Str) (req : Request)
  | Update (id : Str) (req : Request)
  | Delete (id : Str)
  | Options (id : Str)
  deriving DecidableEq

/-- What the handler and the helpers do to the response writer `c` and to the
resource. -/
inductive Effect where
  /-- Body bytes written by `fmt.Fprintf(c, ...)`. -/
  | fprintf (text : Str)
  /-- The call `c.Header().Set(key, value)`. -/
  | setHeader (key value : Str)
  /-- The call `http.Error(c, msg, code)`. -/
  | error (msg : Str) (code : Nat)
  /-- The call `c.WriteHeader(code)`. -/
  | writeHeader (code : Nat)
  /-- The call `c.Write(data)`. -/
  | write (data : Str)
  /-- A capability method called on resource value `res`. -/
  | invoke (res : Res) (call : Call)
  deriving DecidableEq

/-- The map `resources`: a key is absent (`none`), or bound to an interface
value, which is nil (`some none`) or holds a resource (`some (some r)`). -/
abbrev Registry := Str → Option (Option Res)

/-- The map before any registration (`make(map[string]interface{})`). -/
def emptyRegistry : Registry := fun _ => none

/-- The assignment `resources[name] = res` of `Resource`. -/
def Registry.set (resources : Registry) (name : Str) (res : Option Res) : Registry :=
  fun k => if k = name then some res else resources k

/-- The comma-ok type assertion `resource.(I)` for the interface whose flag is
`cap`: the value itself when it satisfies `I`; a nil interface value satisfies
none. -/
def assertIface (resource : Option Res) (cap : Res → Bool) : Option Res :=
  match resource with
  | some r => if cap r then some r else none
  | none => none

/-! ## Response helpers -/

def StatusOK : Nat := 200
def StatusCreated : Nat := 201
def StatusNoContent : Nat := 204
def StatusBadRequest : Nat := 400
def StatusNotFound : Nat := 404
def StatusNotImplemented : Nat := 501

/-- Emits a 404 Not Found. -/
def NotFound : List Effect :=
  [Effect.error "404 Not Found".toList StatusNotFound]

/-- Emits a 501 Not Implemented. -/
def NotImplemented : List Effect :=
  [Effect.error "501 Not Implemented".toList StatusNotImplemented]

/-- Emits a 201 Created with the URI for the new location. -/
def Created (location : Str) : List Effect :=
  [Effect.setHeader "Location".toList location,
   Effect.error "201 Created".toList StatusCreated]

/-- Emits a 200 OK with a location. -/
def Updated (location : Str) : List Effect :=
  [Effect.setHeader "Location".toList location,
   Effect.error "200 OK".toList StatusOK]

/-- Emits a bad request with the specified instructions. -/
def BadRequest (instructions : Str) : List Effect :=
  [Effect.writeHeader StatusBadRequest, Effect.write instructions]

/-- Emits a 204 No Content. -/
def NoContent : List Effect :=
  [Effect.error "204 No Content".toList StatusNoContent]

/-! ## The handler -/

/-- Lines 73-80 of `resourceHandler`: the resource name and the id cut out of
`req.URL.Path`. -/
def parsePath (path : Str) : Except Panic (Str × Str) := do
  let rest ← sliceFrom path 1
  let resourceEnd : Int := stringsIndex rest "/".toList + 1
  let resourceName ←
    if resourceEnd = -1 then sliceFrom path 1 else slice path 1 resourceEnd
  let id ← sliceFrom path (resourceEnd + 1)
  return (resourceName, id)

/-- Lines 87-171 of `resourceHandler`: the switch on `len(id) == 0` and on
`req.Method`. -/
def dispatch (resource : Option Res) (id : Str) (req : Request) :
    Except Panic (List Effect) :=
  if id.length = 0 then
    if req.Method = "GET".toList then
      match assertIface resource Res.informed_index with
      | some resIndex =>
        match req.ParseForm with
        | Except.error err => Except.ok (BadRequest err)
        | Except.ok form =>
          Except.ok [Effect.invoke resIndex (Call.IndexInformed form req.Header)]
      | none =>
        match assertIface resource Res.index with
        | some resIndex => Except.ok [Effect.invoke resIndex Call.Index]
        | none => Except.ok NotImplemented
    else if req.Method = "POST".toList then
      match assertIface resource Res.create with
      | some resCreate => Except.ok [Effect.invoke resCreate (Call.Create req)]
      | none => Except.ok NotImplemented
    else if req.Method = "OPTIONS".toList then
      match assertIface resource Res.options with
      | some resOptions => Except.ok [Effect.invoke resOptions (Call.Options id)]
      | none => Except.ok NotImplemented
    else
      Except.ok NotImplemented
  else
    if req.Method = "GET".toList then
      match assertIface resource Res.informed_find with
      | some resFind =>
        match req.ParseForm with
        | Except.error err => Except.ok (BadRequest err)
        | Except.ok form =>
          Except.ok [Effect.invoke resFind (Call.FindInformed id form req.Header)]
      | none =>
        match assertIface resource Res.find with
        | some resFind => Except.ok [Effect.invoke resFind (Call.Find id)]
        | none => Except.ok NotImplemented
    else if req.Method = "POST".toList then
      match assertIface resource Res.action with
      | some resVerb =>
        let parts := stringsSplit id "/".toList
        match indexAt parts 0 with
        | Except.error p => Except.error p
        | Except.ok first =>
          if first = [] then
            Except.ok [Effect.error ("invalid uri ".toList ++ id) StatusBadRequest]
          else
            Except.ok [Effect.invoke resVerb (Call.Act parts req)]
      | none => Except.ok NotImplemented
    else if req.Method = "PUT".toList then
      match assertIface resource Res.update with
      | some resUpdate => Except.ok [Effect.invoke resUpdate (Call.Update id req)]
      | none => Except.ok NotImplemented
    else if req.Method = "DELETE".toList then
      match assertIface resource Res.delete with
      | some resDelete => Except.ok [Effect.invoke resDelete (Call.Delete id)]
      | none => Except.ok NotImplemented
    else if req.Method = "OPTIONS".toList then
      match assertIface resource Res.options with
      | some resOptions => Except.ok [Effect.invoke resOptions (Call.Options id)]
      | none => Except.ok NotImplemented
    else
      Except.ok NotImplemented

/-- Lines 82-85 of `resourceHandler`: the map read `resources[resourceName]`
(a missing key reads as the nil interface value) and the diagnostic written
when the key is missing. -/
def lookup (resources : Registry) (resourceName : Str) : Option Res × List Effect :=
  match resources resourceName with
  | some resource => (resource, [])
  | none =>
    (none, [Effect.fprintf ("resource ".toList ++ resourceName ++ " not found\n".toList)])

/-- Generic resource handler: the effects of one run on `req`, or the panic
that ends it. -/
def resourceHandler (resources : Registry) (req : Request) :
    Except Panic (List Effect) := do
  let (resourceName, id) ← parsePath req.Path
  let (resource, diagnostic) := lookup resources resourceName
  let effects ← dispatch resource id req
  return diagnostic ++ effects

/-- The state `Resource` writes: the map `resources`, and the patterns that
`http.Handle` has bound to `resourceHandler` in the default mux (a map from
pattern to handler). -/
structure Server where
  resources : Registry
  handled : Str → Bool

/-- The state at program start: an empty map and no pattern bound. -/
def Server.initial : Server := ⟨emptyRegistry, fun _ => false⟩

/-- Add a resource route to http: the map write `resources[name] = res` and
`http.Handle("/"+name+"/", http.HandlerFunc(resourceHandler))`.  `res` is an
`interface{}` and may be nil.  `Handle` of package `http`, the library this
source is written against, is the map write `mux.m[pattern] = handler`; the
pattern here is never empty, the one pattern it rejects. -/
def Resource (s : Server) (name : Str) (res : Option Res) : Server :=
  { resources := s.resources.set name res,
    handled := fun pattern =>
      if pattern = "/".toList ++ name ++ "/".toList then true else s.handled pattern }

/-- A sequence of `Resource` calls, first to last. -/
def registerAll (s : Server) : List (Str × Option Res) → Server
  | [] => s
  | (name, res) :: rest => registerAll (Resource s name res) rest

/-! ## Reading a run -/

/-- The capability calls of a run, in order. -/
def invocations : List Effect → List (Res × Call)
  | [] => []
  | Effect.invoke r call :: es => (r, call) :: invocations es
  | _ :: es => invocations es

/-- The state of the response as `net/http` keeps it: the status is fixed by
the first `WriteHeader`, or as 200 by a body write that comes before any; the
header map is frozen from then on.  `header` holds the fields set through
`c.Header().Set`; `body` holds the bytes the writer has accepted (on a HEAD
request the server accepts them and sends none). -/
structure Response where
  header : List (Str × Str)
  status : Option Nat
  body : Str
  deriving DecidableEq

/-- The response of a fresh writer. -/
def Response.fresh : Response := ⟨[], none, []⟩

/-- Method `WriteHeader`: only the first call counts. -/
def Response.writeHeader (w : Response) (code : Nat) : Response :=
  match w.status with
  | some _ => w
  | none => { w with status := some code }

/-- The rule of `net/http` for which statuses carry a body: none for 1xx, 204
and 304. -/
def bodyAllowedForStatus (status : Nat) : Bool :=
  if 100 ≤ status ∧ status ≤ 199 then false
  else if status = 204 then false
  else if status = 304 then false
  else true

/-- Method `Write`: sends status 200 first when no header went out yet; the
bytes are refused when the status of the response carries no body. -/
def Response.write (w : Response) (data : Str) : Response :=
  let w1 := w.writeHeader StatusOK
  match w1.status with
  | some code =>
    if bodyAllowedForStatus code then { w1 with body := w1.body ++ data } else w1
  | none => w1

/-- One effect on the writer.  `http.Error(c, msg, code)` is
`c.WriteHeader(code)` followed by `fmt.Fprintln(c, msg)`, which writes `msg`
and a line end.  What a capability method writes is its own business and is
not followed. -/
def Response.step (w : Response) : Effect → Response
  | Effect.fprintf text => w.write text
  | Effect.setHeader key value =>
    match w.status with
    | some _ => w
    | none => { w with header := (key, value) :: w.header.filter (fun kv => kv.1 ≠ key) }
  | Effect.error msg code => (w.writeHeader code).write (msg ++ "\n".toList)
  | Effect.writeHeader code => w.writeHeader code
  | Effect.write data => w.write data
  | Effect.invoke _ _ => w

/-- The response the handler itself produces in a run, on a fresh writer. -/
def ownResponse (effects : List Effect) : Response :=
  effects.foldl Response.step Response.fresh

/-- The value of header `key` in the response (`Header().Get(key)`). -/
def Response.headerGet (w : Response) (key : Str) : Option Str :=
  (w.header.find? (fun kv => kv.1 = key)).map (fun kv => kv.2)

/-- A request with no headers whose form parses to the empty form. -/
def mkRequest (method path : Str) : Request :=
  ⟨method, path, [], Except.ok []⟩

/-- A resource value whose type has the one-argument `Index` and nothing
else. -/
def bareIndexOnly : Res :=
  { ident := 1, index := true, informed_index := false, create := false, find := false,
    informed_find := false, update := false, action := false, delete := false,
    options := false }

/-- A resource value with every flag set.  (No Go type satisfies both `index`
and `informed_index`, or both `find` and `informed_find`, the method names
being the same; the flags are kept independent so that the order of the
probes can be stated.) -/
def fullResource : Res :=
  { ident := 2, index := true, informed_index := true, create := true, find := true,
    informed_find := true, update := true, action := true, delete := true,
    options := true }

/-- The map after `Resource("snips", bareIndexOnly)` and
`Resource("full", fullResource)`. -/
def exampleRegistry : Registry :=
  (emptyRegistry.set "snips".toList (some bareIndexOnly)).set "full".toList
    (some fullResource)

/-- The path `"/" + name + "/" + id`. -/
def pathOf (name id : Str) : Str := "/".toList ++ name ++ "/".toList ++ id

/-! ## The method × id matrix of the specification -/

/-- The capabilities of section 4.2. -/
inductive Capability where
  | index | informed_index | create | find | informed_find
  | update | action | delete | options
  deriving DecidableEq, Repr

/-- The interface flag of a capability. -/
def Capability.flag : Capability → Res → Bool
  | Capability.index => Res.index
  | Capability.informed_index => Res.informed_index
  | Capability.create => Res.create
  | Capability.find => Res.find
  | Capability.informed_find => Res.informed_find
  | Capability.update => Res.update
  | Capability.action => Res.action
  | Capability.delete => Res.delete
  | Capability.options => Res.options

/-- Section 4.3 of the specification, as written there: the capabilities a
request with this method and this kind of id routes to, in order of
preference; no capability for a method the matrix does not list. -/
def specRoute (method : Str) (idEmpty : Bool) : List Capability :=
  if idEmpty then
    if method = "GET".toList then [Capability.informed_index, Capability.index]
    else if method = "POST".toList then [Capability.create]
    else if method = "OPTIONS".toList then [Capability.options]
    else []
  else
    if method = "GET".toList then [Capability.informed_find, Capability.find]
    else if method = "POST".toList then [Capability.action]
    else if method = "PUT".toList then [Capability.update]
    else if method = "DELETE".toList then [Capability.delete]
    else if method = "OPTIONS".toList then [Capability.options]
    else []

/-! ## The example collection (`examples/snips/collection.go`) -/

/-- Go `int` arithmetic on a machine with `bits`-bit ints: the two's-complement
value of `x`. -/
def wrapInt (bits : Nat) (x : Int) : Int :=
  (x + 2 ^ (bits - 1)) % 2 ^ bits - 2 ^ (bits - 1)

/-- Snip definition. -/
structure Snip where
  Id : Int
  Body : Str
  deriving DecidableEq

/-- The constructor `NewSnip` (its log line left out). -/
def NewSnip (id : Int) (body : Str) : Snip := ⟨id, body⟩

/-- SnipsCollection definition.  The vector holds `interface{}` values: an
element is a `*Snip` (`some`) or a value of another type (`none`). -/
structure SnipsCollection where
  v : List (Option Snip)
  nextId : Int
  deriving DecidableEq

/-- The constructor `NewSnipsCollection`: an empty vector and `nextId` 0. -/
def NewSnipsCollection : SnipsCollection := ⟨[], 0⟩

/-- Method `Add`: the collection after the call, and the id returned. -/
def SnipsCollection.Add (bits : Nat) (snips : SnipsCollection) (body : Str) :
    SnipsCollection × Int :=
  let id := snips.nextId
  let snip := NewSnip id body
  ({ v := snips.v ++ [some snip], nextId := wrapInt bits (snips.nextId + 1) }, id)

/-- The loop of `WithId` over the vector's data. -/
def withIdLoop (id : Int) : List (Option Snip) → Option Snip × Bool
  | [] => (none, false)
  | some snip :: rest => if snip.Id = id then (some snip, true) else withIdLoop id rest
  | none :: rest => withIdLoop id rest

/-- Method `WithId`: the first snip with this id and true, or nil and false. -/
def SnipsCollection.WithId (snips : SnipsCollection) (id : Int) : Option Snip × Bool :=
  withIdLoop id snips.v

/-- Method `All`: a slice as long as the vector, with the snip at each place
that holds one and nil elsewhere. -/
def SnipsCollection.All (snips : SnipsCollection) : List (Option Snip) :=
  snips.v.map (fun v =>
    match v with
    | some snip => some snip
    | none => none)

/-- A sequence of `Add` calls, first to last: the collection at the end and
the ids returned, in call order. -/
def addAll (bits : Nat) : SnipsCollection → List Str → SnipsCollection × List Int
  | snips, [] => (snips, [])
  | snips, body :: rest =>
    ((addAll bits (snips.Add bits body).1 rest).1,
     (snips.Add bits body).2 :: (addAll bits (snips.Add bits body).1 rest).2)

/-- The ids of the snips held in the vector, in order. -/
def SnipsCollection.ids (snips : SnipsCollection) : List Int :=
  snips.v.filterMap (fun v => v.map Snip.Id)

/-- The snips with consecutive ids from `k` on and the given bodies. -/
def snipsFrom : Int → List Str → List (Option Snip)
  | _, [] => []
  | k, body :: rest => some ⟨k, body⟩ :: snipsFrom (k + 1) rest

example : (addAll 64 NewSnipsCollection ["a".toList, "b".toList]).2 = [0, 1] := by decide
example : (addAll 64 NewSnipsCollection ["a".toList, "b".toList]).1.WithId 1
    = (some ⟨1, "b".toList⟩, true) := by decide
example : (addAll 64 NewSnipsCollection ["a".toList, "b".toList]).1.WithId 2
    = (none, false) := by decide
example : (addAll 2 NewSnipsCollection ["a".toList, "b".toList, "c".toList]).2
    = [0, 1, -2] := by decide

/-! ## The handler on sample requests -/

example : parsePath "/snips/42".toList = Except.ok ("snips".toList, "42".toList) := by decide
example : parsePath "/snips/".toList = Except.ok ("snips".toList, []) := by decide
example : parsePath "/snips".toList = Except.error Panic.sliceBounds := by decide
example : parsePath "/".toList = Except.error Panic.sliceBounds := by decide
example : parsePath [] = Except.error Panic.sliceBounds := by decide
example : resourceHandler emptyRegistry (mkRequest "DELETE".toList "/unknown/1".toList)
    = Except.ok [Effect.fprintf "resource unknown not found\n".toList,
        Effect.error "501 Not Implemented".toList 501] := by decide

/-! ## Facts about the library functions -/

theorem startsWith_slash (c : Char) (s : Str) :
    startsWith (c :: s) ['/'] = (c == '/') := by
  simp [startsWith]

theorem indexFrom_slash_append (name id : Str) (i : Int) (h : '/' ∉ name) :
    indexFrom ['/'] (name ++ '/' :: id) i = i + name.length := by
  induction name generalizing i with
  | nil => simp [indexFrom, startsWith]
  | cons c t ih =>
    have hc : c ≠ '/' := fun e => h (by simp [e])
    have ht : '/' ∉ t := fun e => h (by simp [e])
    simp only [List.cons_append, indexFrom, startsWith_slash]
    simp only [beq_iff_eq, hc, if_false]
    show indexFrom ['/'] (t ++ '/' :: id) (i + 1) = _
    rw [ih (i + 1) ht]
    simp only [List.length_cons]
    push_cast
    ring

theorem indexFrom_slash_none (s : Str) (i : Int) (h : '/' ∉ s) :
    indexFrom ['/'] s i = -1 := by
  induction s generalizing i with
  | nil => simp [indexFrom, startsWith]
  | cons c t ih =>
    have hc : c ≠ '/' := fun e => h (by simp [e])
    have ht : '/' ∉ t := fun e => h (by simp [e])
    simp only [indexFrom, startsWith_slash, beq_iff_eq, hc, if_false]
    exact ih (i + 1) ht

theorem slice_drop_take (s : Str) (lo hi : Nat) (h1 : lo ≤ hi) (h2 : hi ≤ s.length) :
    slice s (lo : Int) (hi : Int) = Except.ok ((s.drop lo).take (hi - lo)) := by
  unfold slice
  rw [if_pos ⟨by omega, by omega, by omega⟩]
  simp

theorem sliceFrom_drop (s : Str) (lo : Nat) (h : lo ≤ s.length) :
    sliceFrom s (lo : Int) = Except.ok (s.drop lo) := by
  unfold sliceFrom
  rw [slice_drop_take s lo s.length h le_rfl]
  simp

/-- The parse of lines 73-80 on a path with a second slash. -/
theorem parsePath_pathOf (name id : Str) (h : '/' ∉ name) :
    parsePath (pathOf name id) = Except.ok (name, id) := by
  have hp : pathOf name id = '/' :: (name ++ '/' :: id) := by
    simp [pathOf]
  have e1 : sliceFrom ('/' :: (name ++ '/' :: id)) 1 = Except.ok (name ++ '/' :: id) := by
    have := sliceFrom_drop ('/' :: (name ++ '/' :: id)) 1 (by simp)
    simpa using this
  have e2 : stringsIndex (name ++ '/' :: id) "/".toList = (name.length : Int) := by
    have := indexFrom_slash_append name id 0 h
    simpa [stringsIndex] using this
  have e3 : slice ('/' :: (name ++ '/' :: id)) 1 ((name.length : Int) + 1)
      = Except.ok name := by
    have := slice_drop_take ('/' :: (name ++ '/' :: id)) 1 (name.length + 1)
      (by omega) (by simp)
    simpa using this
  have e4 : sliceFrom ('/' :: (name ++ '/' :: id)) ((name.length : Int) + 1 + 1)
      = Except.ok id := by
    have := sliceFrom_drop ('/' :: (name ++ '/' :: id)) (name.length + 2)
      (by simp)
    have e : ((name.length + 2 : Nat) : Int) = (name.length : Int) + 1 + 1 := by
      push_cast; ring
    rw [e] at this
    rw [this]
    simp
  have hne : ¬ ((name.length : Int) + 1 = -1) := by omega
  rw [hp]
  simp only [parsePath, bind, Except.bind, e1, e2, e3, e4, hne, if_false, pure, Except.pure]

/-! ## Facts about the handler -/

/-- On a path `"/" + name + "/" + id` whose name is a key of the map, a run is
the method switch on the bound value and `id`. -/
theorem resourceHandler_pathOf (resources : Registry) (req : Request) (name id : Str)
    (resource : Option Res) (hname : '/' ∉ name) (hpath : req.Path = pathOf name id)
    (hreg : resources name = some resource) :
    resourceHandler resources req = dispatch resource id req := by
  simp only [resourceHandler, hpath, parsePath_pathOf name id hname, lookup, hreg,
    bind, Except.bind, pure, Except.pure]
  cases dispatch resource id req <;> simp

/-- With the nil interface value every type assertion fails and every cell of
the switch ends in `NotImplemented`. -/
theorem dispatch_nil (id : Str) (req : Request) :
    dispatch none id req = Except.ok NotImplemented := by
  unfold dispatch
  simp only [assertIface]
  split_ifs <;> rfl

/-- A run on a request whose parsed name is no key of the map. -/
theorem resourceHandler_unknown (resources : Registry) (req : Request) (name id : Str)
    (hparse : parsePath req.Path = Except.ok (name, id)) (hreg : resources name = none) :
    resourceHandler resources req
      = Except.ok (Effect.fprintf ("resource ".toList ++ name ++ " not found\n".toList)
          :: NotImplemented) := by
  simp [resourceHandler, hparse, lookup, hreg, dispatch_nil, bind, Except.bind,
    pure, Except.pure]

/-- The parse of lines 73-80 on a path without a second slash: the guard
`resourceEnd == -1` sees 0 and the slice `Path[1:0]` is out of range. -/
theorem parsePath_single_segment (rest : Str) (h : '/' ∉ rest) :
    parsePath ('/' :: rest) = Except.error Panic.sliceBounds := by
  have e1 : sliceFrom ('/' :: rest) 1 = Except.ok rest := by
    have := sliceFrom_drop ('/' :: rest) 1 (by simp)
    simpa using this
  have e2 : stringsIndex rest "/".toList = -1 := by
    have := indexFrom_slash_none rest 0 h
    simpa [stringsIndex] using this
  have e3 : slice ('/' :: rest) 1 0 = Except.error Panic.sliceBounds := by
    simp [slice]
  simp only [parsePath, bind, Except.bind, e1, e2]
  simp [e3]

/-- Every path with a second slash is `"/" + name + "/" + id` for a name
without a slash. -/
theorem exists_pathOf (rest : Str) (h : '/' ∈ rest) :
    ∃ name id, '/' ∉ name ∧ '/' :: rest = pathOf name id := by
  induction rest with
  | nil => simp at h
  | cons c t ih =>
    by_cases hc : c = '/'
    · exact ⟨[], t, by simp, by simp [pathOf, hc]⟩
    · have ht : '/' ∈ t := by
        rcases List.mem_cons.mp h with e | e
        · exact absurd e.symm hc
        · exact e
      obtain ⟨name, id, hn, hp⟩ := ih ht
      refine ⟨c :: name, id, ?_, ?_⟩
      · simp only [List.mem_cons, not_or]
        exact ⟨fun e => hc e.symm, hn⟩
      · simp only [pathOf, List.cons_append, List.nil_append, String.toList,
          List.cons.injEq, true_and] at hp ⊢
        simpa using hp

theorem splitGo_ne_nil (sep : Str) (skip : Nat) (cur s : Str) :
    splitGo sep skip cur s ≠ [] := by
  induction s generalizing skip cur with
  | nil => simp [splitGo]
  | cons c t ih =>
    cases skip with
    | zero =>
      simp only [splitGo]
      split_ifs
      · simp
      · exact ih 0 (c :: cur)
    | succ k =>
      simp only [splitGo]
      exact ih k cur

/-- The index expression `parts[0]` of line 138 is in range: splitting on
`"/"` yields at least one segment. -/
theorem indexAt_split_ok (id : Str) :
    ∃ first, indexAt (stringsSplit id "/".toList) 0 = Except.ok first := by
  have h : stringsSplit id "/".toList = splitGo ['/'] 0 [] id := by
    simp [stringsSplit]
  rw [h]
  cases hs : splitGo ['/'] 0 [] id with
  | nil => exact absurd hs (splitGo_ne_nil _ _ _ _)
  | cons a l => exact ⟨a, by simp [indexAt]⟩

/-- The method switch never panics. -/
theorem dispatch_ok (resource : Option Res) (id : Str) (req : Request) :
    ∃ effects, dispatch resource id req = Except.ok effects := by
  obtain ⟨first, hfirst⟩ := indexAt_split_ok id
  unfold dispatch
  simp only [hfirst]
  split_ifs <;> (repeat (first | split | exact ⟨_, rfl⟩))

/-- The first segment of a split on `"/"` is empty when the string begins
with a slash. -/
theorem split_head_of_slash (t : Str) :
    (stringsSplit ('/' :: t) "/".toList).head? = some [] := by
  simp [stringsSplit, splitGo, startsWith]

/-- The first segment of a split on `"/"` is the run of bytes before the first
slash. -/
theorem splitGo_head (cur s : Str) :
    (splitGo ['/'] 0 cur s).head? = some (cur.reverse ++ s.takeWhile (fun c => c != '/')) := by
  induction s generalizing cur with
  | nil => simp [splitGo]
  | cons c t ih =>
    by_cases hc : c = '/'
    · simp [splitGo, startsWith, hc]
    · simp [splitGo, startsWith, hc, ih (c :: cur)]

/-- The first segment is empty exactly when the string is empty or begins with
a slash. -/
theorem split_head_empty_iff (id : Str) :
    (stringsSplit id "/".toList).head? = some [] ↔ (id = [] ∨ id.head? = some '/') := by
  have h : stringsSplit id "/".toList = splitGo ['/'] 0 [] id := by
    simp [stringsSplit]
  rw [h, splitGo_head]
  cases id with
  | nil => simp
  | cons c t =>
    by_cases hc : c = '/'
    · simp [hc]
    · simp [hc]

/-- What `parts[0]` reads is the head of the list. -/
theorem indexAt_zero (parts : List Str) (first : Str)
    (h : indexAt parts 0 = Except.ok first) : parts.head? = some first := by
  cases parts with
  | nil => simp [indexAt] at h
  | cons a l =>
    simp only [indexAt, List.get?_cons_zero, Except.ok.injEq] at h
    simp [h]

/-- The switch on `POST` with a non-empty id and a value that satisfies
`action`. -/
theorem dispatch_post_action (r : Res) (id : Str) (req : Request)
    (hact : r.action = true) (hpost : req.Method = "POST".toList) (hid : id ≠ []) :
    dispatch (some r) id req
      = if (stringsSplit id "/".toList).head? = some [] then
          Except.ok [Effect.error ("invalid uri ".toList ++ id) 400]
        else
          Except.ok [Effect.invoke r (Call.Act (stringsSplit id "/".toList) req)] := by
  obtain ⟨first, hfirst⟩ := indexAt_split_ok id
  have hhead := indexAt_zero _ _ hfirst
  have hlen : ¬ (id.length = 0) := by
    simpa [List.length_eq_zero] using hid
  have hne : ¬ ("POST".toList = "GET".toList) := by decide
  unfold dispatch
  simp only [hlen, if_false, hpost, hne, if_true, assertIface, hact, hfirst, hhead,
    Option.some.injEq, StatusBadRequest]

/-- The parse of lines 73-80 reads nothing of the first byte: on any path
whose rest is `name + "/" + id` it yields that name and that id. -/
theorem parsePath_cons_append (c : Char) (name id : Str) (h : '/' ∉ name) :
    parsePath (c :: (name ++ '/' :: id)) = Except.ok (name, id) := by
  have e1 : sliceFrom (c :: (name ++ '/' :: id)) 1 = Except.ok (name ++ '/' :: id) := by
    have := sliceFrom_drop (c :: (name ++ '/' :: id)) 1 (by simp)
    simpa using this
  have e2 : stringsIndex (name ++ '/' :: id) "/".toList = (name.length : Int) := by
    have := indexFrom_slash_append name id 0 h
    simpa [stringsIndex] using this
  have e3 : slice (c :: (name ++ '/' :: id)) 1 ((name.length : Int) + 1)
      = Except.ok name := by
    have := slice_drop_take (c :: (name ++ '/' :: id)) 1 (name.length + 1)
      (by omega) (by simp)
    simpa using this
  have e4 : sliceFrom (c :: (name ++ '/' :: id)) ((name.length : Int) + 1 + 1)
      = Except.ok id := by
    have := sliceFrom_drop (c :: (name ++ '/' :: id)) (name.length + 2) (by simp)
    have e : ((name.length + 2 : Nat) : Int) = (name.length : Int) + 1 + 1 := by
      push_cast; ring
    rw [e] at this
    rw [this]
    simp
  have hne : ¬ ((name.length : Int) + 1 = -1) := by omega
  simp only [parsePath, bind, Except.bind, e1, e2, e3, e4, hne, if_false, pure, Except.pure]

/-- The parse panics on any path whose rest has no slash. -/
theorem parsePath_cons_no_slash (c : Char) (rest : Str) (h : '/' ∉ rest) :
    parsePath (c :: rest) = Except.error Panic.sliceBounds := by
  have e1 : sliceFrom (c :: rest) 1 = Except.ok rest := by
    have := sliceFrom_drop (c :: rest) 1 (by simp)
    simpa using this
  have e2 : stringsIndex rest "/".toList = -1 := by
    have := indexFrom_slash_none rest 0 h
    simpa [stringsIndex] using this
  have e3 : slice (c :: rest) 1 0 = Except.error Panic.sliceBounds := by
    simp [slice]
  simp only [parsePath, bind, Except.bind, e1, e2]
  simp [e3]

/-- A string with a slash is `name + "/" + id` for a name without one. -/
theorem exists_split_at_slash (rest : Str) (h : '/' ∈ rest) :
    ∃ name id, '/' ∉ name ∧ rest = name ++ '/' :: id := by
  induction rest with
  | nil => simp at h
  | cons c t ih =>
    by_cases hc : c = '/'
    · exact ⟨[], t, by simp, by simp [hc]⟩
    · have ht : '/' ∈ t := by
        rcases List.mem_cons.mp h with e | e
        · exact absurd e.symm hc
        · exact e
      obtain ⟨name, id, hn, hp⟩ := ih ht
      refine ⟨c :: name, id, ?_, by simp [hp]⟩
      simp only [List.mem_cons, not_or]
      exact ⟨fun e => hc e.symm, hn⟩

/-- Whenever the parse returns, the path is one byte followed by
`name + "/" + id`, and the name has no slash. -/
theorem parsePath_inv (path name id : Str) (h : parsePath path = Except.ok (name, id)) :
    '/' ∉ name ∧ ∃ c, path = c :: (name ++ '/' :: id) := by
  cases path with
  | nil =>
    have : parsePath [] = Except.error Panic.sliceBounds := by decide
    rw [this] at h
    cases h
  | cons c rest =>
    by_cases hs : '/' ∈ rest
    · obtain ⟨n, i, hn, hr⟩ := exists_split_at_slash rest hs
      subst hr
      rw [parsePath_cons_append c n i hn] at h
      simp only [Except.ok.injEq, Prod.mk.injEq] at h
      obtain ⟨h1, h2⟩ := h
      subst h1
      subst h2
      exact ⟨hn, c, rfl⟩
    · rw [parsePath_cons_no_slash c rest hs] at h
      cases h

/-- A run that returns is the lookup on the parsed name followed by the switch
on the parsed id. -/
theorem resourceHandler_inv (resources : Registry) (req : Request) (effects : List Effect)
    (h : resourceHandler resources req = Except.ok effects) :
    ∃ name id rest, parsePath req.Path = Except.ok (name, id)
      ∧ dispatch (lookup resources name).1 id req = Except.ok rest
      ∧ effects = (lookup resources name).2 ++ rest := by
  cases hp : parsePath req.Path with
  | error e => simp [resourceHandler, hp, bind, Except.bind] at h
  | ok ni =>
    obtain ⟨name, id⟩ := ni
    cases hd : dispatch (lookup resources name).1 id req with
    | error e => simp [resourceHandler, hp, hd, bind, Except.bind] at h
    | ok rest =>
      refine ⟨name, id, rest, rfl, hd, ?_⟩
      simp only [resourceHandler, hp, hd, bind, Except.bind, pure, Except.pure,
        Except.ok.injEq] at h
      exact h.symm

/-- The diagnostic of a failed lookup is no capability call. -/
theorem invocations_lookup_append (resources : Registry) (name : Str) (rest : List Effect) :
    invocations ((lookup resources name).2 ++ rest) = invocations rest := by
  unfold lookup
  cases resources name <;> simp [invocations]

/-- Joining the segments of a split on `"/"` gives the string back. -/
theorem splitGo_join (cur s : Str) :
    stringsJoin (splitGo ['/'] 0 cur s) ['/'] = cur.reverse ++ s := by
  induction s generalizing cur with
  | nil => simp [splitGo, stringsJoin]
  | cons c t ih =>
    by_cases hc : c = '/'
    · subst hc
      have hstep : splitGo ['/'] 0 cur ('/' :: t) = cur.reverse :: splitGo ['/'] 0 [] t := by
        simp [splitGo, startsWith]
      rw [hstep]
      cases hs : splitGo ['/'] 0 [] t with
      | nil => exact absurd hs (splitGo_ne_nil _ _ _ _)
      | cons a l =>
        have := ih []
        rw [hs] at this
        simp only [stringsJoin, this]
        simp
    · have hstep : splitGo ['/'] 0 cur (c :: t) = splitGo ['/'] 0 (c :: cur) t := by
        simp [splitGo, startsWith, hc]
      rw [hstep, ih (c :: cur)]
      simp

/-- No segment of a split on `"/"` holds a slash. -/
theorem splitGo_no_slash (cur s : Str) (h : '/' ∉ cur) :
    ∀ seg ∈ splitGo ['/'] 0 cur s, '/' ∉ seg := by
  induction s generalizing cur with
  | nil =>
    intro seg hseg
    simp only [splitGo, List.mem_singleton] at hseg
    subst hseg
    simpa using h
  | cons c t ih =>
    by_cases hc : c = '/'
    · subst hc
      have hstep : splitGo ['/'] 0 cur ('/' :: t) = cur.reverse :: splitGo ['/'] 0 [] t := by
        simp [splitGo, startsWith]
      rw [hstep]
      intro seg hseg
      rcases List.mem_cons.mp hseg with e | e
      · subst e
        simpa using h
      · exact ih [] (by simp) seg e
    · have hstep : splitGo ['/'] 0 cur (c :: t) = splitGo ['/'] 0 (c :: cur) t := by
        simp [splitGo, startsWith, hc]
      rw [hstep]
      apply ih (c :: cur)
      simp only [List.mem_cons, not_or]
      exact ⟨fun e => hc e.symm, h⟩

/-- The one cell of the switch that calls Act: POST, a non-empty id, a value
that satisfies `action`, and a non-empty first segment; the tail is the split
of the id and the request is passed on. -/
theorem dispatch_act (resource : Option Res) (id : Str) (req : Request)
    (effects : List Effect) (r : Res) (parts : List Str) (rq : Request)
    (h : dispatch resource id req = Except.ok effects)
    (hmem : (r, Call.Act parts rq) ∈ invocations effects) :
    parts = stringsSplit id "/".toList ∧ rq = req ∧ id ≠ []
      ∧ parts.head? ≠ some [] ∧ req.Method = "POST".toList
      ∧ assertIface resource Res.action = some r := by
  obtain ⟨first, hfirst⟩ := indexAt_split_ok id
  have hhead := indexAt_zero _ _ hfirst
  unfold dispatch at h
  simp only [hfirst] at h
  split_ifs at h with h1 h2 h3 h4 h5 h6 h7 h8 h9 h10 <;>
    (try split at h) <;> (try split at h) <;>
    simp only [Except.ok.injEq, reduceCtorEq] at h <;>
    subst h <;>
    simp [invocations, NotImplemented, BadRequest] at hmem
  rename_i _ resVerb hverb
  obtain ⟨e1, e2, e3⟩ := hmem
  have e4 : parts = stringsSplit id "/".toList := by simpa using e2
  subst e1
  subst e3
  refine ⟨e4, rfl, ?_, ?_, h6, hverb⟩
  · intro hid
    exact h1 (by simp [hid])
  · rw [e4, hhead]
    simpa using h7

/-- A sequence of registrations leaves the binding of a name it does not
mention as it was. -/
theorem registerAll_other (s : Server) (regs : List (Str × Option Res)) (name : Str)
    (h : ∀ p ∈ regs, p.1 ≠ name) :
    (registerAll s regs).resources name = s.resources name := by
  induction regs generalizing s with
  | nil => rfl
  | cons p rest ih =>
    obtain ⟨n, res⟩ := p
    have hn : name ≠ n := fun e => h (n, res) (by simp) e.symm
    have hrest : ∀ q ∈ rest, q.1 ≠ name := fun q hq => h q (by simp [hq])
    simp only [registerAll]
    rw [ih (Resource s n res) hrest]
    simp [Resource, Registry.set, hn]

/-! ## Facts about the response -/

/-- The response to a single `http.Error(c, msg, code)` on a fresh writer, for
a status that carries a body: that status, and `msg` with a line end. -/
theorem ownResponse_error (msg : Str) (code : Nat) (h : bodyAllowedForStatus code = true) :
    ownResponse [Effect.error msg code] = ⟨[], some code, msg ++ "\n".toList⟩ := by
  simp [ownResponse, Response.step, Response.write, Response.writeHeader, Response.fresh, h]

/-- The response to `BadRequest(c, text)` on a fresh writer: status 400 and
the text, byte for byte. -/
theorem ownResponse_BadRequest (text : Str) :
    ownResponse (BadRequest text) = ⟨[], some 400, text⟩ := by
  have h : bodyAllowedForStatus 400 = true := by decide
  simp [ownResponse, BadRequest, Response.step, Response.write, Response.writeHeader,
    Response.fresh, StatusBadRequest, h]

/-- The response to `Location` set and then a single `http.Error`, for a
status that carries a body. -/
theorem ownResponse_location_error (location msg : Str) (code : Nat)
    (h : bodyAllowedForStatus code = true) :
    ownResponse [Effect.setHeader "Location".toList location, Effect.error msg code]
      = ⟨[("Location".toList, location)], some code, msg ++ "\n".toList⟩ := by
  simp [ownResponse, Response.step, Response.write, Response.writeHeader, Response.fresh, h]

/-- The response to a body write followed by a single `http.Error`: the first
write fixes status 200, the status of the error is dropped, its text and line
end are appended. -/
theorem ownResponse_fprintf_error (text msg : Str) (code : Nat) :
    ownResponse [Effect.fprintf text, Effect.error msg code]
      = ⟨[], some 200, text ++ (msg ++ "\n".toList)⟩ := by
  have h : bodyAllowedForStatus 200 = true := by decide
  simp [ownResponse, Response.step, Response.write, Response.writeHeader, Response.fresh,
    StatusOK, h]

/-! ## Facts about the example collection -/

/-- No wrap on a value that fits: a non-negative `x` below `2^(bits-1)`. -/
theorem wrapInt_of_fits (bits : Nat) (x : Int) (h0 : 0 ≤ x)
    (h1 : x < 2 ^ (bits - 1)) (hb : 1 ≤ bits) : wrapInt bits x = x := by
  have hpow : (2 : Int) ^ bits = 2 * 2 ^ (bits - 1) := by
    obtain ⟨k, rfl⟩ : ∃ k, bits = k + 1 := ⟨bits - 1, by omega⟩
    simp [pow_succ, mul_comm]
  unfold wrapInt
  rw [hpow, Int.emod_eq_of_lt (by omega) (by omega)]
  omega

/-- A sequence of adds that fits the int range appends the snips with the next
ids and returns those ids. -/
theorem addAll_fits (bits : Nat) (bodies : List Str) (snips : SnipsCollection)
    (h0 : 0 ≤ snips.nextId)
    (h1 : snips.nextId + (bodies.length : Int) < 2 ^ (bits - 1)) :
    addAll bits snips bodies
      = (⟨snips.v ++ snipsFrom snips.nextId bodies, snips.nextId + (bodies.length : Int)⟩,
         (List.range bodies.length).map (fun (i : Nat) => snips.nextId + (i : Int))) := by
  induction bodies generalizing snips with
  | nil =>
    simp [addAll, snipsFrom]
  | cons body rest ih =>
    simp only [List.length_cons, Nat.cast_add, Nat.cast_one] at h1
    have hb : 1 ≤ bits := by
      rcases Nat.eq_zero_or_pos bits with hz | hz
      · subst hz
        simp at h1
        omega
      · exact hz
    have hw : wrapInt bits (snips.nextId + 1) = snips.nextId + 1 :=
      wrapInt_of_fits bits _ (by omega) (by omega) hb
    have hstep := ih (snips.Add bits body).1
      (by simp only [SnipsCollection.Add, hw]; omega)
      (by simp only [SnipsCollection.Add, hw]; omega)
    simp only [addAll, hstep]
    simp only [SnipsCollection.Add, hw, NewSnip, snipsFrom, List.append_assoc,
      List.singleton_append, List.length_cons, Nat.cast_add, Nat.cast_one, Prod.mk.injEq,
      SnipsCollection.mk.injEq, true_and]
    refine ⟨by ring, ?_⟩
    rw [List.range_succ_eq_map]
    simp only [List.map_cons, Nat.cast_zero, add_zero, List.map_map, List.cons.injEq,
      true_and]
    apply List.map_congr_left
    intro i _
    simp only [Function.comp, Nat.cast_succ]
    ring

/-- The loop of `WithId` finds the snip at offset `i` of a run of consecutive
ids. -/
theorem withIdLoop_hit (k : Int) (bodies : List Str) (i : Nat) (h : i < bodies.length) :
    withIdLoop (k + (i : Int)) (snipsFrom k bodies)
      = (some ⟨k + (i : Int), bodies.get ⟨i, h⟩⟩, true) := by
  induction bodies generalizing k i with
  | nil => simp at h
  | cons body rest ih =>
    cases i with
    | zero => simp [snipsFrom, withIdLoop]
    | succ j =>
      have hj : j < rest.length := by simpa using h
      have hne : ¬ (k = k + ((j + 1 : Nat) : Int)) := by push_cast; omega
      have e : k + ((j + 1 : Nat) : Int) = (k + 1) + (j : Int) := by push_cast; ring
      simp only [snipsFrom, withIdLoop, hne, if_false]
      rw [e, ih (k + 1) j hj]
      simp

/-- The loop of `WithId` finds nothing for an id outside a run of consecutive
ids. -/
theorem withIdLoop_miss (k : Int) (bodies : List Str) (id : Int)
    (h : id < k ∨ k + (bodies.length : Int) ≤ id) :
    withIdLoop id (snipsFrom k bodies) = (none, false) := by
  induction bodies generalizing k with
  | nil => simp [snipsFrom, withIdLoop]
  | cons body rest ih =>
    simp only [List.length_cons, Nat.cast_add, Nat.cast_one] at h
    have hne : ¬ (k = id) := by omega
    simp only [snipsFrom, withIdLoop, hne, if_false]
    exact ih (k + 1) (by omega)

/-- The ids held in a run of consecutive snips. -/
theorem ids_snipsFrom (k : Int) (bodies : List Str) :
    (snipsFrom k bodies).filterMap (fun v => v.map Snip.Id)
      = (List.range bodies.length).map (fun (i : Nat) => k + (i : Int)) := by
  induction bodies generalizing k with
  | nil => simp [snipsFrom]
  | cons body rest ih =>
    rw [List.length_cons, List.range_succ_eq_map]
    simp only [snipsFrom, List.filterMap_cons, Option.map_some', ih (k + 1), List.map_cons,
      Nat.cast_zero, add_zero, List.map_map, List.cons.injEq, true_and]
    apply List.map_congr_left
    intro i _
    simp only [Function.comp, Nat.cast_succ]
    ring

/-- The element at place `i` of a run of consecutive snips. -/
theorem snipsFrom_get (k : Int) (bodies : List Str) (i : Nat) (h : i < bodies.length) :
    (snipsFrom k bodies).get? i = some (some ⟨k + (i : Int), bodies.get ⟨i, h⟩⟩) := by
  induction bodies generalizing k i with
  | nil => simp at h
  | cons body rest ih =>
    cases i with
    | zero => simp [snipsFrom]
    | succ j =>
      have hj : j < rest.length := by simpa using h
      have e : k + ((j + 1 : Nat) : Int) = (k + 1) + (j : Int) := by push_cast; ring
      simp only [snipsFrom, List.get?_cons_succ]
      rw [e, ih (k + 1) j hj]
      simp

theorem snipsFrom_length (k : Int) (bodies : List Str) :
    (snipsFrom k bodies).length = bodies.length := by
  induction bodies generalizing k with
  | nil => rfl
  | cons body rest ih => simp [snipsFrom, ih (k + 1)]

/-! ## Claims -/

/-- C1: for a registered resource (a key of the map whose name is a path
segment), any method and any path "/" + name + "/" + id, if the bound value
satisfies none of the capabilities the specification routes (method, id empty?)
to, the run performs the single effect of `NotImplemented`, that is
`http.Error(c, "501 Not Implemented", 501)`: the response has status 501 and
as body that text with the line end of `http.Error`, and no capability is
called. -/
theorem C1_missing_capability_is_501 (resources : Registry) (req : Request)
    (name id : Str) (resource : Option Res)
    (hname : '/' ∉ name) (hpath : req.Path = pathOf name id)
    (hreg : resources name = some resource)
    (hmiss : ∀ cap ∈ specRoute req.Method id.isEmpty,
      assertIface resource cap.flag = none) :
    ∃ effects, resourceHandler resources req = Except.ok effects
      ∧ effects = [Effect.error "501 Not Implemented".toList 501]
      ∧ (ownResponse effects).status = some 501
      ∧ (ownResponse effects).body = "501 Not Implemented\n".toList
      ∧ invocations effects = [] := by
  refine ⟨[Effect.error "501 Not Implemented".toList 501], ?_, rfl,
    by decide, by decide, by decide⟩
  rw [resourceHandler_pathOf resources req name id resource hname hpath hreg]
  show dispatch resource id req = Except.ok NotImplemented
  cases id with
  | nil =>
    unfold dispatch
    simp only [specRoute, List.isEmpty_nil, if_true] at hmiss
    simp only [List.length_nil, if_true]
    split_ifs at hmiss ⊢ <;> simp_all [Capability.flag]
  | cons c t =>
    unfold dispatch
    simp only [specRoute, List.isEmpty_cons, Bool.false_eq_true, if_false] at hmiss
    simp only [List.length_cons, Nat.succ_ne_zero, if_false]
    split_ifs at hmiss ⊢ <;> simp_all [Capability.flag]

/-- Witness of C1: `POST /snips/` on a resource without `Create`. -/
theorem C1_missing_capability_is_501_witness :
    ∃ effects, resourceHandler exampleRegistry
        (mkRequest "POST".toList "/snips/".toList) = Except.ok effects
      ∧ effects = [Effect.error "501 Not Implemented".toList 501]
      ∧ (ownResponse effects).status = some 501
      ∧ (ownResponse effects).body = "501 Not Implemented\n".toList
      ∧ invocations effects = [] :=
  C1_missing_capability_is_501 exampleRegistry
    (mkRequest "POST".toList "/snips/".toList) "snips".toList [] (some bareIndexOnly)
    (by decide) (by decide) (by decide) (by decide)

/-- C2: for a name without "/" and any id (slashes allowed), the handler on
the path "/" + name + "/" + id cuts out exactly that name and that id, and
runs the lookup and the method switch on them; the id is empty exactly when
the path is "/" + name + "/". -/
theorem C2_name_and_id_verbatim (name id : Str) (hname : '/' ∉ name) :
    parsePath (pathOf name id) = Except.ok (name, id)
      ∧ (∀ (resources : Registry) (req : Request), req.Path = pathOf name id →
          resourceHandler resources req
            = (dispatch (lookup resources name).1 id req).map
                (fun effects => (lookup resources name).2 ++ effects))
      ∧ (id = [] ↔ pathOf name id = "/".toList ++ name ++ "/".toList) := by
  refine ⟨parsePath_pathOf name id hname, ?_, ?_⟩
  · intro resources req hpath
    simp only [resourceHandler, hpath, parsePath_pathOf name id hname, bind, Except.bind,
      pure, Except.pure, Except.map]
  · simp [pathOf]

/-- Witness of C2: the path `/snips/42/publish/now`. -/
theorem C2_name_and_id_verbatim_witness :
    parsePath "/snips/42/publish/now".toList
      = Except.ok ("snips".toList, "42/publish/now".toList) :=
  (C2_name_and_id_verbatim "snips".toList "42/publish/now".toList (by decide)).1

/-- C3 (the code departs from it): on the single-segment path `/snips` the
claim wants name `snips` and an empty id; the handler panics on the slice
`Path[1:0]` instead, for every map and every method. -/
theorem C3_single_segment_panics (resources : Registry) (method : Str) :
    parsePath "/snips".toList = Except.error Panic.sliceBounds
      ∧ resourceHandler resources (mkRequest method "/snips".toList)
          = Except.error Panic.sliceBounds := by
  have h : parsePath "/snips".toList = Except.error Panic.sliceBounds := by decide
  refine ⟨h, ?_⟩
  simp only [resourceHandler, mkRequest, h, bind, Except.bind]

/-- C4 (the code departs from it): on a path that begins with "/" the handler
panics exactly when there is no second slash, and otherwise ends with a list
of effects; `parts[0]` is always in range. -/
theorem C4_panics_iff_no_second_slash (resources : Registry) (method rest : Str)
    (header : Header) (form : Except Str Values) :
    (resourceHandler resources ⟨method, '/' :: rest, header, form⟩
        = Except.error Panic.sliceBounds ↔ '/' ∉ rest)
      ∧ ((∃ effects, resourceHandler resources ⟨method, '/' :: rest, header, form⟩
          = Except.ok effects) ↔ '/' ∈ rest)
      ∧ (∀ id, ∃ first, indexAt (stringsSplit id "/".toList) 0 = Except.ok first)
      ∧ resourceHandler emptyRegistry (mkRequest "GET".toList "/".toList)
          = Except.error Panic.sliceBounds := by
  have hpanic : '/' ∉ rest →
      resourceHandler resources ⟨method, '/' :: rest, header, form⟩
        = Except.error Panic.sliceBounds := by
    intro h
    simp only [resourceHandler, parsePath_single_segment rest h, bind, Except.bind]
  have hok : '/' ∈ rest →
      ∃ effects, resourceHandler resources ⟨method, '/' :: rest, header, form⟩
        = Except.ok effects := by
    intro h
    obtain ⟨name, id, hn, hp⟩ := exists_pathOf rest h
    obtain ⟨effects, he⟩ :=
      dispatch_ok (lookup resources name).1 id ⟨method, '/' :: rest, header, form⟩
    refine ⟨(lookup resources name).2 ++ effects, ?_⟩
    simp only [resourceHandler, hp, parsePath_pathOf name id hn, bind, Except.bind,
      pure, Except.pure]
    rw [hp] at he
    simp only [he]
  refine ⟨⟨?_, hpanic⟩, ⟨?_, hok⟩, indexAt_split_ok, by decide⟩
  · intro he hmem
    obtain ⟨effects, h⟩ := hok hmem
    rw [he] at h
    cases h
  · rintro ⟨effects, he⟩
    by_contra hmem
    rw [hpanic hmem] at he
    cases he

/-- C5: on a GET for a registered resource, with an empty id informed Index
is called with the parsed form and the request headers whenever the value
satisfies `informed_index` (whether or not it satisfies `index` too), bare
Index only when `informed_index` is not satisfied; the same for informed Find
(id, form, headers) over bare Find (id) with a non-empty id; a run never makes
more than one call. -/
theorem C5_informed_before_bare (resources : Registry) (req : Request) (name id : Str)
    (r : Res) (hname : '/' ∉ name) (hpath : req.Path = pathOf name id)
    (hreg : resources name = some (some r)) (hget : req.Method = "GET".toList) :
    (id = [] → r.informed_index = true → ∀ form, req.ParseForm = Except.ok form →
        resourceHandler resources req
          = Except.ok [Effect.invoke r (Call.IndexInformed form req.Header)])
      ∧ (id = [] → r.informed_index = false → r.index = true →
        resourceHandler resources req = Except.ok [Effect.invoke r Call.Index])
      ∧ (id ≠ [] → r.informed_find = true → ∀ form, req.ParseForm = Except.ok form →
        resourceHandler resources req
          = Except.ok [Effect.invoke r (Call.FindInformed id form req.Header)])
      ∧ (id ≠ [] → r.informed_find = false → r.find = true →
        resourceHandler resources req = Except.ok [Effect.invoke r (Call.Find id)])
      ∧ (∀ effects, resourceHandler resources req = Except.ok effects →
          (invocations effects).length ≤ 1
          ∧ (∀ r1, (r1, Call.Index) ∈ invocations effects → r.informed_index = false)
          ∧ (∀ r1 id1, (r1, Call.Find id1) ∈ invocations effects →
              r.informed_find = false)) := by
  rw [resourceHandler_pathOf resources req name id (some r) hname hpath hreg]
  rcases r with ⟨ident, ix, iix, cr, fd, ifd, up, ac, de, op⟩
  cases id <;> cases iix <;> cases ix <;> cases ifd <;> cases fd <;>
    cases hf : req.ParseForm <;>
    simp [dispatch, hget, assertIface, invocations, BadRequest, NotImplemented, hf]

/-- Witness of C5: `GET /full/` on a value with both Index flags set calls the
informed one. -/
theorem C5_informed_before_bare_witness :
    resourceHandler exampleRegistry (mkRequest "GET".toList "/full/".toList)
      = Except.ok [Effect.invoke fullResource (Call.IndexInformed [] [])] :=
  (C5_informed_before_bare exampleRegistry (mkRequest "GET".toList "/full/".toList)
    "full".toList [] fullResource (by decide) (by decide) (by decide) (by decide)).1
    rfl rfl [] rfl

/-- C6: when the name parsed from the path is no key of the map, the run ends
normally, for every method and every id, and calls no capability. -/
theorem C6_unknown_name_invokes_nothing (resources : Registry) (req : Request)
    (name id : Str) (hparse : parsePath req.Path = Except.ok (name, id))
    (hreg : resources name = none) :
    ∃ effects, resourceHandler resources req = Except.ok effects
      ∧ invocations effects = [] := by
  refine ⟨_, resourceHandler_unknown resources req name id hparse hreg, ?_⟩
  simp [invocations, NotImplemented]

/-- Witness of C6: `DELETE /unknown/1` against a map that holds a resource
with `Delete`. -/
theorem C6_unknown_name_invokes_nothing_witness :
    ∃ effects, resourceHandler exampleRegistry
        (mkRequest "DELETE".toList "/unknown/1".toList) = Except.ok effects
      ∧ invocations effects = [] :=
  C6_unknown_name_invokes_nothing exampleRegistry
    (mkRequest "DELETE".toList "/unknown/1".toList) "unknown".toList "1".toList
    (by decide) (by decide)

/-- C7 (the code departs from it): on `DELETE /unknown/1` the handler writes
the diagnostic to the body, which fixes the status at 200, and then calls
`NotImplemented`; the status of the response is 200 and not 404. -/
theorem C7_unknown_resource_status_is_not_404 :
    resourceHandler exampleRegistry (mkRequest "DELETE".toList "/unknown/1".toList)
        = Except.ok [Effect.fprintf "resource unknown not found\n".toList,
            Effect.error "501 Not Implemented".toList 501]
      ∧ (ownResponse [Effect.fprintf "resource unknown not found\n".toList,
            Effect.error "501 Not Implemented".toList 501]).status = some 200
      ∧ (ownResponse [Effect.fprintf "resource unknown not found\n".toList,
            Effect.error "501 Not Implemented".toList 501]).status ≠ some 404 := by
  refine ⟨by decide, by decide, by decide⟩

/-- C8: for a registered resource that satisfies `action`, a POST with a
non-empty id whose first "/"-separated segment is non-empty makes the handler
call Act once, with `strings.Split(id, "/")` and the request, and perform no
other effect. -/
theorem C8_post_with_id_invokes_act (resources : Registry) (req : Request)
    (name id : Str) (r : Res) (hname : '/' ∉ name) (hpath : req.Path = pathOf name id)
    (hreg : resources name = some (some r)) (hact : r.action = true)
    (hpost : req.Method = "POST".toList) (hid : id ≠ [])
    (hfirst : (stringsSplit id "/".toList).head? ≠ some []) :
    resourceHandler resources req
      = Except.ok [Effect.invoke r (Call.Act (stringsSplit id "/".toList) req)] := by
  rw [resourceHandler_pathOf resources req name id (some r) hname hpath hreg,
    dispatch_post_action r id req hact hpost hid, if_neg hfirst]

/-- Witness of C8: `POST /full/42/publish/now` reaches Act with the tail
`["42", "publish", "now"]`. -/
theorem C8_post_with_id_invokes_act_witness :
    resourceHandler exampleRegistry (mkRequest "POST".toList "/full/42/publish/now".toList)
        = Except.ok [Effect.invoke fullResource
            (Call.Act (stringsSplit "42/publish/now".toList "/".toList)
              (mkRequest "POST".toList "/full/42/publish/now".toList))]
      ∧ stringsSplit "42/publish/now".toList "/".toList
        = ["42".toList, "publish".toList, "now".toList] :=
  ⟨C8_post_with_id_invokes_act exampleRegistry
    (mkRequest "POST".toList "/full/42/publish/now".toList) "full".toList
    "42/publish/now".toList fullResource (by decide) (by decide) (by decide) (by decide)
    (by decide) (by decide) (by decide), by decide⟩

/-- C9: for a registered resource that satisfies `action`, a POST with a
non-empty id that begins with "/" is answered through `http.Error` with status
400 and the text `invalid uri ` followed by the id (the body is that text with
the line end of `http.Error`), and Act is not called. -/
theorem C9_post_empty_first_segment_is_400 (resources : Registry) (req : Request)
    (name id : Str) (r : Res) (hname : '/' ∉ name) (hpath : req.Path = pathOf name id)
    (hreg : resources name = some (some r)) (hact : r.action = true)
    (hpost : req.Method = "POST".toList) (hid : id ≠ [])
    (hslash : id.head? = some '/') :
    ∃ effects, resourceHandler resources req = Except.ok effects
      ∧ effects = [Effect.error ("invalid uri ".toList ++ id) 400]
      ∧ (ownResponse effects).status = some 400
      ∧ (ownResponse effects).body = "invalid uri ".toList ++ id ++ "\n".toList
      ∧ invocations effects = [] := by
  refine ⟨[Effect.error ("invalid uri ".toList ++ id) 400], ?_, rfl, ?_, ?_, ?_⟩
  · cases id with
    | nil => exact absurd rfl hid
    | cons c t =>
      have hc : c = '/' := by simpa using hslash
      subst hc
      rw [resourceHandler_pathOf resources req name _ (some r) hname hpath hreg,
        dispatch_post_action r _ req hact hpost hid, if_pos (split_head_of_slash t)]
  · simp [ownResponse, Response.step, Response.write, Response.writeHeader, Response.fresh,
      bodyAllowedForStatus]
  · simp [ownResponse, Response.step, Response.write, Response.writeHeader, Response.fresh,
      bodyAllowedForStatus]
  · simp [invocations]

/-- Witness of C9: `POST /full//publish`. -/
theorem C9_post_empty_first_segment_is_400_witness :
    ∃ effects, resourceHandler exampleRegistry
        (mkRequest "POST".toList "/full//publish".toList) = Except.ok effects
      ∧ effects = [Effect.error ("invalid uri ".toList ++ "/publish".toList) 400]
      ∧ (ownResponse effects).status = some 400
      ∧ (ownResponse effects).body = "invalid uri ".toList ++ "/publish".toList ++ "\n".toList
      ∧ invocations effects = [] :=
  C9_post_empty_first_segment_is_400 exampleRegistry
    (mkRequest "POST".toList "/full//publish".toList) "full".toList "/publish".toList
    fullResource (by decide) (by decide) (by decide) (by decide) (by decide) (by decide)
    (by decide)

/-- C10: for a registered resource that satisfies the interface in question,
the run is exactly one call of that capability with the parsed id unchanged
and no write by the handler: POST with an empty id calls Create with the
request, PUT with a non-empty id calls Update with the id and the request,
DELETE with a non-empty id calls Delete with the id, OPTIONS calls Options with
the id, empty or not. -/
theorem C10_exactly_the_capability (resources : Registry) (req : Request)
    (name id : Str) (r : Res) (hname : '/' ∉ name) (hpath : req.Path = pathOf name id)
    (hreg : resources name = some (some r)) :
    (req.Method = "POST".toList → id = [] → r.create = true →
        resourceHandler resources req = Except.ok [Effect.invoke r (Call.Create req)])
      ∧ (req.Method = "PUT".toList → id ≠ [] → r.update = true →
        resourceHandler resources req = Except.ok [Effect.invoke r (Call.Update id req)])
      ∧ (req.Method = "DELETE".toList → id ≠ [] → r.delete = true →
        resourceHandler resources req = Except.ok [Effect.invoke r (Call.Delete id)])
      ∧ (req.Method = "OPTIONS".toList → r.options = true →
        resourceHandler resources req = Except.ok [Effect.invoke r (Call.Options id)]) := by
  rw [resourceHandler_pathOf resources req name id (some r) hname hpath hreg]
  have h1 : ¬ ("POST".toList = "GET".toList) := by decide
  have h2 : ¬ ("PUT".toList = "GET".toList) := by decide
  have h3 : ¬ ("PUT".toList = "POST".toList) := by decide
  have h4 : ¬ ("DELETE".toList = "GET".toList) := by decide
  have h5 : ¬ ("DELETE".toList = "POST".toList) := by decide
  have h6 : ¬ ("DELETE".toList = "PUT".toList) := by decide
  have h7 : ¬ ("OPTIONS".toList = "GET".toList) := by decide
  have h8 : ¬ ("OPTIONS".toList = "POST".toList) := by decide
  have h9 : ¬ ("OPTIONS".toList = "PUT".toList) := by decide
  have h10 : ¬ ("OPTIONS".toList = "DELETE".toList) := by decide
  refine ⟨?_, ?_, ?_, ?_⟩
  · intro hm hid hc
    subst hid
    simp only [dispatch, List.length_nil, if_true, hm, h1, if_false, assertIface, hc]
  · intro hm hid hc
    have hlen : ¬ (id.length = 0) := by simpa [List.length_eq_zero] using hid
    simp only [dispatch, hlen, if_false, hm, h2, h3, if_true, assertIface, hc]
  · intro hm hid hc
    have hlen : ¬ (id.length = 0) := by simpa [List.length_eq_zero] using hid
    simp only [dispatch, hlen, if_false, hm, h4, h5, h6, if_true, assertIface, hc]
  · intro hm hc
    by_cases hid : id = []
    · subst hid
      simp only [dispatch, List.length_nil, if_true, hm, h7, h8, if_false, assertIface, hc]
    · have hlen : ¬ (id.length = 0) := by simpa [List.length_eq_zero] using hid
      simp only [dispatch, hlen, if_false, hm, h7, h8, h9, h10, if_true, assertIface, hc]

/-- Witness of C10: `PUT /full/42` calls Update with id `42`, and
`OPTIONS /full/` calls Options with the empty id. -/
theorem C10_exactly_the_capability_witness :
    resourceHandler exampleRegistry (mkRequest "PUT".toList "/full/42".toList)
        = Except.ok [Effect.invoke fullResource
            (Call.Update "42".toList (mkRequest "PUT".toList "/full/42".toList))]
      ∧ resourceHandler exampleRegistry (mkRequest "OPTIONS".toList "/full/".toList)
        = Except.ok [Effect.invoke fullResource (Call.Options [])] :=
  ⟨(C10_exactly_the_capability exampleRegistry (mkRequest "PUT".toList "/full/42".toList)
      "full".toList "42".toList fullResource (by decide) (by decide) (by decide)).2.1
      rfl (by decide) rfl,
   (C10_exactly_the_capability exampleRegistry (mkRequest "OPTIONS".toList "/full/".toList)
      "full".toList [] fullResource (by decide) (by decide) (by decide)).2.2.2
      rfl rfl⟩

/-- C11: on a GET for a registered resource that satisfies `informed_index`
(empty id) or `informed_find` (non-empty id), a failing `ParseForm` with
message e gives the two effects of `BadRequest(c, e)`, status 400 and body e,
and no call of either variant; a successful parse gives a run that is the call
of the informed variant and nothing before it. -/
theorem C11_parse_failure_is_400 (resources : Registry) (req : Request) (name id : Str)
    (r : Res) (hname : '/' ∉ name) (hpath : req.Path = pathOf name id)
    (hreg : resources name = some (some r)) (hget : req.Method = "GET".toList)
    (hinformed : if id = [] then r.informed_index = true else r.informed_find = true) :
    (∀ e, req.ParseForm = Except.error e →
        ∃ effects, resourceHandler resources req = Except.ok effects
          ∧ effects = BadRequest e
          ∧ (ownResponse effects).status = some 400
          ∧ (ownResponse effects).body = e
          ∧ invocations effects = [])
      ∧ (∀ form, req.ParseForm = Except.ok form →
        resourceHandler resources req
          = Except.ok [Effect.invoke r
              (if id = [] then Call.IndexInformed form req.Header
               else Call.FindInformed id form req.Header)]) := by
  rw [resourceHandler_pathOf resources req name id (some r) hname hpath hreg]
  cases id with
  | nil =>
    simp only [if_true] at hinformed
    refine ⟨fun e he => ⟨BadRequest e, ?_, rfl, ?_, ?_, ?_⟩, fun form hf => ?_⟩
    · simp [dispatch, hget, assertIface, hinformed, he]
    · rw [ownResponse_BadRequest]
    · rw [ownResponse_BadRequest]
    · simp [invocations, BadRequest]
    · simp [dispatch, hget, assertIface, hinformed, hf]
  | cons c t =>
    simp only [reduceCtorEq, if_false] at hinformed
    refine ⟨fun e he => ⟨BadRequest e, ?_, rfl, ?_, ?_, ?_⟩, fun form hf => ?_⟩
    · simp [dispatch, hget, assertIface, hinformed, he]
    · rw [ownResponse_BadRequest]
    · rw [ownResponse_BadRequest]
    · simp [invocations, BadRequest]
    · simp [dispatch, hget, assertIface, hinformed, hf]

/-- Witness of C11: `GET /full/42` with a form that fails to parse. -/
theorem C11_parse_failure_is_400_witness :
    ∃ effects, resourceHandler exampleRegistry
        ⟨"GET".toList, "/full/42".toList, [], Except.error "bad form".toList⟩
          = Except.ok effects
      ∧ effects = BadRequest "bad form".toList
      ∧ (ownResponse effects).status = some 400
      ∧ (ownResponse effects).body = "bad form".toList
      ∧ invocations effects = [] :=
  (C11_parse_failure_is_400 exampleRegistry
    ⟨"GET".toList, "/full/42".toList, [], Except.error "bad form".toList⟩
    "full".toList "42".toList fullResource (by decide) (by decide) (by decide) (by decide)
    (by decide)).1 "bad form".toList rfl

/-- Counterexample to C12 as stated: the body of the reply of `NotFound` is not
`404 Not Found` (a line end follows the text), and the reply of `NoContent`
has no body. -/
theorem C12_counterexample :
    ¬ ((ownResponse NotFound).status = some 404
          ∧ (ownResponse NotFound).body = "404 Not Found".toList)
      ∧ ¬ ((ownResponse NoContent).status = some 204
          ∧ (ownResponse NoContent).body = "204 No Content".toList) := by
  decide

/-- C12 as amended: each helper makes exactly the calls of section 4.4 on the
writer, for every input.  NotFound, NotImplemented, Created and Updated reply
through `http.Error` with status 404, 501, 201, 200 and a body that is the
text `404 Not Found`, `501 Not Implemented`, `201 Created`, `200 OK` followed
by a line end; NoContent replies through `http.Error` with the text
`204 No Content` and status 204, a status that carries no body, so the body
is empty; BadRequest(text) gives 400 and a body equal to the text; Created
and Updated set header `Location` to exactly the location first. -/
theorem C12_helper_replies (text location : Str) :
    (NotFound = [Effect.error "404 Not Found".toList 404]
        ∧ (ownResponse NotFound).status = some 404
        ∧ (ownResponse NotFound).body = "404 Not Found\n".toList)
      ∧ (NotImplemented = [Effect.error "501 Not Implemented".toList 501]
        ∧ (ownResponse NotImplemented).status = some 501
        ∧ (ownResponse NotImplemented).body = "501 Not Implemented\n".toList)
      ∧ (NoContent = [Effect.error "204 No Content".toList 204]
        ∧ (ownResponse NoContent).status = some 204
        ∧ (ownResponse NoContent).body = [])
      ∧ (BadRequest text = [Effect.writeHeader 400, Effect.write text]
        ∧ (ownResponse (BadRequest text)).status = some 400
        ∧ (ownResponse (BadRequest text)).body = text)
      ∧ (Created location
          = [Effect.setHeader "Location".toList location,
             Effect.error "201 Created".toList 201]
        ∧ (ownResponse (Created location)).status = some 201
        ∧ (ownResponse (Created location)).body = "201 Created\n".toList
        ∧ (ownResponse (Created location)).headerGet "Location".toList = some location)
      ∧ (Updated location
          = [Effect.setHeader "Location".toList location,
             Effect.error "200 OK".toList 200]
        ∧ (ownResponse (Updated location)).status = some 200
        ∧ (ownResponse (Updated location)).body = "200 OK\n".toList
        ∧ (ownResponse (Updated location)).headerGet "Location".toList = some location) := by
  have h201 : bodyAllowedForStatus 201 = true := by decide
  have h200 : bodyAllowedForStatus 200 = true := by decide
  refine ⟨by decide, by decide, by decide, ⟨rfl, ?_, ?_⟩, ⟨rfl, ?_, ?_, ?_⟩,
    ⟨rfl, ?_, ?_, ?_⟩⟩
  · rw [ownResponse_BadRequest]
  · rw [ownResponse_BadRequest]
  · simp only [Created, StatusCreated, ownResponse_location_error _ _ _ h201]
  · simp only [Created, StatusCreated, ownResponse_location_error _ _ _ h201]
    rfl
  · simp only [Created, StatusCreated, ownResponse_location_error _ _ _ h201]
    simp [Response.headerGet]
  · simp only [Updated, StatusOK, ownResponse_location_error _ _ _ h200]
  · simp only [Updated, StatusOK, ownResponse_location_error _ _ _ h200]
    rfl
  · simp only [Updated, StatusOK, ownResponse_location_error _ _ _ h200]
    simp [Response.headerGet]

/-- C13: after `Resource(name, res)` the map read the handler performs for
`name` finds `res` (and writes no diagnostic), the binding of every other name
is as before; for a name no registration has mentioned the read finds nothing,
and being a map read it always returns. -/
theorem C13_lookup_after_register (s : Server) (name : Str) (res : Option Res) :
    (Resource s name res).resources name = some res
      ∧ lookup (Resource s name res).resources name = (res, [])
      ∧ (∀ other, other ≠ name →
          (Resource s name res).resources other = s.resources other)
      ∧ (∀ regs : List (Str × Option Res), (∀ p ∈ regs, p.1 ≠ name) →
          (registerAll Server.initial regs).resources name = none
          ∧ (lookup (registerAll Server.initial regs).resources name).1 = none) := by
  refine ⟨by simp [Resource, Registry.set], by simp [lookup, Resource, Registry.set],
    fun other ho => by simp [Resource, Registry.set, ho], fun regs h => ?_⟩
  have hn : (registerAll Server.initial regs).resources name = none := by
    rw [registerAll_other Server.initial regs name h]
    rfl
  exact ⟨hn, by simp [lookup, hn]⟩

/-- C14: calling `Resource(name, res)` twice leaves the same state (map and
bound patterns) as calling it once, and a later `Resource(name, res2)` replaces
the binding: the read for `name` finds `res2`. -/
theorem C14_registration_idempotent (s : Server) (name : Str) (res res2 : Option Res) :
    Resource (Resource s name res) name res = Resource s name res
      ∧ (Resource (Resource s name res) name res).resources
          = (Resource s name res).resources
      ∧ (Resource (Resource s name res) name res2).resources name = some res2
      ∧ lookup (Resource (Resource s name res) name res2).resources name = (res2, []) := by
  have h : Resource (Resource s name res) name res = Resource s name res := by
    simp only [Resource, Server.mk.injEq]
    constructor
    · funext k
      simp only [Registry.set]
      split_ifs <;> rfl
    · funext k
      split_ifs <;> rfl
  refine ⟨h, by rw [h], by simp [Resource, Registry.set],
    by simp [lookup, Resource, Registry.set]⟩

/-- C15: for a registered resource, whatever it satisfies, a request whose
method is none of "GET", "POST", "OPTIONS" with an empty id, or none of "GET",
"POST", "PUT", "DELETE", "OPTIONS" with a non-empty id, ends in the single
effect of `NotImplemented` (status 501, body `501 Not Implemented` with the
line end of `http.Error`) and calls no capability; the comparison is on the
exact bytes of the method. -/
theorem C15_unlisted_method_is_501 (resources : Registry) (req : Request)
    (name id : Str) (resource : Option Res)
    (hname : '/' ∉ name) (hpath : req.Path = pathOf name id)
    (hreg : resources name = some resource)
    (hmethod : if id = [] then
        req.Method ∉ ["GET".toList, "POST".toList, "OPTIONS".toList]
      else
        req.Method ∉ ["GET".toList, "POST".toList, "PUT".toList, "DELETE".toList,
          "OPTIONS".toList]) :
    ∃ effects, resourceHandler resources req = Except.ok effects
      ∧ effects = [Effect.error "501 Not Implemented".toList 501]
      ∧ (ownResponse effects).status = some 501
      ∧ (ownResponse effects).body = "501 Not Implemented\n".toList
      ∧ invocations effects = [] := by
  refine ⟨[Effect.error "501 Not Implemented".toList 501], ?_, rfl,
    by decide, by decide, by decide⟩
  rw [resourceHandler_pathOf resources req name id resource hname hpath hreg]
  show dispatch resource id req = Except.ok NotImplemented
  cases id with
  | nil =>
    simp only [if_true, List.mem_cons, List.mem_singleton, not_or, List.not_mem_nil,
      or_false] at hmethod
    obtain ⟨h1, h2, h3⟩ := hmethod
    simp only [dispatch, List.length_nil, if_true, h1, h2, h3, if_false]
  | cons c t =>
    simp only [reduceCtorEq, if_false, List.mem_cons, List.mem_singleton, not_or,
      List.not_mem_nil, or_false] at hmethod
    obtain ⟨h1, h2, h3, h4, h5⟩ := hmethod
    simp only [dispatch, List.length_cons, Nat.succ_ne_zero, if_false, h1, h2, h3, h4, h5]

/-- Witness of C15: lower-case `get /full/42` and `PUT /full/` on a resource
that has every capability. -/
theorem C15_unlisted_method_is_501_witness :
    (∃ effects, resourceHandler exampleRegistry
        (mkRequest "get".toList "/full/42".toList) = Except.ok effects
      ∧ effects = [Effect.error "501 Not Implemented".toList 501]
      ∧ (ownResponse effects).status = some 501
      ∧ (ownResponse effects).body = "501 Not Implemented\n".toList
      ∧ invocations effects = [])
    ∧ (∃ effects, resourceHandler exampleRegistry
        (mkRequest "PUT".toList "/full/".toList) = Except.ok effects
      ∧ effects = [Effect.error "501 Not Implemented".toList 501]
      ∧ (ownResponse effects).status = some 501
      ∧ (ownResponse effects).body = "501 Not Implemented\n".toList
      ∧ invocations effects = []) :=
  ⟨C15_unlisted_method_is_501 exampleRegistry (mkRequest "get".toList "/full/42".toList)
    "full".toList "42".toList (some fullResource) (by decide) (by decide) (by decide)
    (by decide),
   C15_unlisted_method_is_501 exampleRegistry (mkRequest "PUT".toList "/full/".toList)
    "full".toList [] (some fullResource) (by decide) (by decide) (by decide)
    (by decide)⟩

/-- Counterexample to C16 as stated: `POST /snips//publish` on a resource that
does not satisfy `action` is answered 501, not 400 with `invalid uri /publish`. -/
theorem C16_counterexample :
    ¬ ∃ effects, resourceHandler exampleRegistry
          (mkRequest "POST".toList "/snips//publish".toList) = Except.ok effects
        ∧ (ownResponse effects).status = some 400
        ∧ (ownResponse effects).body = "invalid uri /publish".toList := by
  rintro ⟨effects, h, hstatus, _⟩
  have hrun : resourceHandler exampleRegistry
      (mkRequest "POST".toList "/snips//publish".toList)
        = Except.ok [Effect.error "501 Not Implemented".toList 501] := by decide
  rw [hrun] at h
  cases h
  revert hstatus
  decide

/-- C16 as amended: for a registered resource, a POST whose id is non-empty and
begins with "/" is answered with status 400 and body `invalid uri ` followed
by the id when the resource satisfies `action`, and with 501 Not Implemented
when it does not, either text reaching the body with the line end of
`http.Error`; Act is called in neither case. -/
theorem C16_post_slash_id_by_action (resources : Registry) (req : Request)
    (name id : Str) (resource : Option Res)
    (hname : '/' ∉ name) (hpath : req.Path = pathOf name id)
    (hreg : resources name = some resource)
    (hpost : req.Method = "POST".toList) (hid : id ≠ [])
    (hslash : id.head? = some '/') :
    ∃ effects, resourceHandler resources req = Except.ok effects
      ∧ invocations effects = []
      ∧ ((∃ r, assertIface resource Res.action = some r) →
          effects = [Effect.error ("invalid uri ".toList ++ id) 400]
          ∧ (ownResponse effects).status = some 400
          ∧ (ownResponse effects).body = "invalid uri ".toList ++ id ++ "\n".toList)
      ∧ (assertIface resource Res.action = none →
          effects = [Effect.error "501 Not Implemented".toList 501]
          ∧ (ownResponse effects).status = some 501
          ∧ (ownResponse effects).body = "501 Not Implemented\n".toList) := by
  rw [resourceHandler_pathOf resources req name id resource hname hpath hreg]
  have hempty : (stringsSplit id "/".toList).head? = some [] :=
    (split_head_empty_iff id).mpr (Or.inr hslash)
  have hlen : ¬ (id.length = 0) := by simpa [List.length_eq_zero] using hid
  have hne : ¬ ("POST".toList = "GET".toList) := by decide
  cases hres : assertIface resource Res.action with
  | none =>
    refine ⟨NotImplemented, ?_, by decide, ?_, fun _ => ⟨rfl, by decide, by decide⟩⟩
    · simp only [dispatch, hlen, if_false, hpost, hne, if_true, hres]
    · rintro ⟨r, hr⟩
      cases hr
  | some r =>
    have hr : resource = some r ∧ r.action = true := by
      cases resource with
      | none => simp [assertIface] at hres
      | some r0 =>
        by_cases h0 : r0.action = true
        · simp only [assertIface, h0, if_true, Option.some.injEq] at hres
          subst hres
          exact ⟨rfl, h0⟩
        · simp [assertIface, h0] at hres
    obtain ⟨hr1, hr2⟩ := hr
    subst hr1
    refine ⟨[Effect.error ("invalid uri ".toList ++ id) 400], ?_, by simp [invocations],
      fun _ => ⟨rfl, ?_, ?_⟩, fun h => by cases h⟩
    · rw [dispatch_post_action r id req hr2 hpost hid, if_pos hempty]
    · simp [ownResponse, Response.step, Response.write, Response.writeHeader,
        Response.fresh, bodyAllowedForStatus]
    · simp [ownResponse, Response.step, Response.write, Response.writeHeader,
        Response.fresh, bodyAllowedForStatus]

/-- Witness of C16 as amended: `POST /snips//publish` on a resource without
`action` is answered 501. -/
theorem C16_post_slash_id_by_action_witness :
    ∃ effects, resourceHandler exampleRegistry
        (mkRequest "POST".toList "/snips//publish".toList) = Except.ok effects
      ∧ invocations effects = []
      ∧ ((∃ r, assertIface (some bareIndexOnly) Res.action = some r) →
          effects = [Effect.error ("invalid uri ".toList ++ "/publish".toList) 400]
          ∧ (ownResponse effects).status = some 400
          ∧ (ownResponse effects).body = "invalid uri ".toList ++ "/publish".toList ++ "\n".toList)
      ∧ (assertIface (some bareIndexOnly) Res.action = none →
          effects = [Effect.error "501 Not Implemented".toList 501]
          ∧ (ownResponse effects).status = some 501
          ∧ (ownResponse effects).body = "501 Not Implemented\n".toList) :=
  C16_post_slash_id_by_action exampleRegistry
    (mkRequest "POST".toList "/snips//publish".toList) "snips".toList "/publish".toList
    (some bareIndexOnly) (by decide) (by decide) (by decide) (by decide) (by decide)
    (by decide)

/-- C17: when the name parsed from the path is no key of the map, the run is
the body write `resource <name> not found` (with its line end) followed by the
effect of `NotImplemented`, which every method and every id reaches in the
switch on the nil value; the body is the diagnostic followed by
`501 Not Implemented` and the line end of `http.Error`. -/
theorem C17_unknown_name_diagnostic_then_501 (resources : Registry) (req : Request)
    (name id : Str) (hparse : parsePath req.Path = Except.ok (name, id))
    (hreg : resources name = none) :
    resourceHandler resources req
        = Except.ok (Effect.fprintf ("resource ".toList ++ name ++ " not found\n".toList)
            :: NotImplemented)
      ∧ lookup resources name
          = (none, [Effect.fprintf ("resource ".toList ++ name ++ " not found\n".toList)])
      ∧ (∀ (id1 : Str) (req1 : Request), dispatch none id1 req1 = Except.ok NotImplemented)
      ∧ (ownResponse (Effect.fprintf ("resource ".toList ++ name ++ " not found\n".toList)
            :: NotImplemented)).body
          = "resource ".toList ++ name ++ " not found\n".toList
              ++ "501 Not Implemented\n".toList := by
  refine ⟨resourceHandler_unknown resources req name id hparse hreg, ?_, dispatch_nil, ?_⟩
  · simp [lookup, hreg]
  · simp only [NotImplemented, ownResponse_fprintf_error, List.append_assoc]
    rfl

/-- Witness of C17: `PUT /unknown/` against the sample map. -/
theorem C17_unknown_name_diagnostic_then_501_witness :
    resourceHandler exampleRegistry (mkRequest "PUT".toList "/unknown/".toList)
      = Except.ok (Effect.fprintf ("resource ".toList ++ "unknown".toList
            ++ " not found\n".toList) :: NotImplemented) :=
  (C17_unknown_name_diagnostic_then_501 exampleRegistry
    (mkRequest "PUT".toList "/unknown/".toList) "unknown".toList [] (by decide)
    (by decide)).1

/-- C18: whenever a run of the handler calls Act, the tail it passes is the
split of the parsed id: a non-empty list whose first segment is non-empty, no
segment holds a "/", and joining the segments with "/" gives the id back byte
for byte. -/
theorem C18_act_tail_shape (resources : Registry) (req : Request)
    (effects : List Effect) (r : Res) (parts : List Str) (rq : Request)
    (hrun : resourceHandler resources req = Except.ok effects)
    (hact : (r, Call.Act parts rq) ∈ invocations effects) :
    ∃ name id, parsePath req.Path = Except.ok (name, id)
      ∧ parts = stringsSplit id "/".toList
      ∧ parts ≠ []
      ∧ (∃ first, parts.head? = some first ∧ first ≠ [])
      ∧ (∀ seg ∈ parts, '/' ∉ seg)
      ∧ stringsJoin parts "/".toList = id := by
  obtain ⟨name, id, rest, hparse, hdisp, heff⟩ := resourceHandler_inv resources req effects hrun
  rw [heff, invocations_lookup_append] at hact
  obtain ⟨hparts, _, _, hhead, _, _⟩ :=
    dispatch_act (lookup resources name).1 id req rest r parts rq hdisp hact
  have hsplit : stringsSplit id "/".toList = splitGo ['/'] 0 [] id := by
    simp [stringsSplit]
  have hne : parts ≠ [] := by
    rw [hparts, hsplit]
    exact splitGo_ne_nil _ _ _ _
  refine ⟨name, id, hparse, hparts, hne, ?_, ?_, ?_⟩
  · cases parts with
    | nil => exact absurd rfl hne
    | cons a l =>
      refine ⟨a, rfl, ?_⟩
      intro ha
      exact hhead (by simp [ha])
  · rw [hparts, hsplit]
    exact splitGo_no_slash [] id (by simp)
  · rw [hparts, hsplit]
    have := splitGo_join [] id
    simpa using this

/-- Witness of C18: `POST /full/42/` reaches Act with the tail `["42", ""]`,
whose join is the id `42/`. -/
theorem C18_act_tail_shape_witness :
    resourceHandler exampleRegistry (mkRequest "POST".toList "/full/42/".toList)
        = Except.ok [Effect.invoke fullResource (Call.Act ["42".toList, []]
            (mkRequest "POST".toList "/full/42/".toList))]
      ∧ ∃ name id, parsePath (mkRequest "POST".toList "/full/42/".toList).Path
            = Except.ok (name, id)
          ∧ ["42".toList, []] = stringsSplit id "/".toList
          ∧ ["42".toList, []] ≠ ([] : List Str)
          ∧ (∃ first, ["42".toList, []].head? = some first ∧ first ≠ [])
          ∧ (∀ seg ∈ ["42".toList, ([] : Str)], '/' ∉ seg)
          ∧ stringsJoin ["42".toList, []] "/".toList = id :=
  ⟨by decide,
   C18_act_tail_shape exampleRegistry (mkRequest "POST".toList "/full/42/".toList)
    [Effect.invoke fullResource (Call.Act ["42".toList, []]
      (mkRequest "POST".toList "/full/42/".toList))]
    fullResource ["42".toList, []] (mkRequest "POST".toList "/full/42/".toList)
    (by decide) (by decide)⟩

/-- C19: the name the handler cuts out of a path never holds a "/"; so the
key it reads in the map is never a name that holds one, whatever the path,
and on a path under the prefix "/" + name + "/" installed for such a name the
run is the lookup and the switch for the part of the name before its first
slash, a key that is unknown or bound by another registration. -/
theorem C19_slash_name_never_found (resources : Registry) (name : Str)
    (hslash : '/' ∈ name) :
    (∀ path n id, parsePath path = Except.ok (n, id) → '/' ∉ n ∧ n ≠ name)
      ∧ (∀ (req : Request) (tail : Str), req.Path = pathOf name tail →
          ∃ n id, parsePath req.Path = Except.ok (n, id)
            ∧ '/' ∉ n ∧ n ≠ name
            ∧ pathOf name tail = pathOf n id
            ∧ resourceHandler resources req
                = (dispatch (lookup resources n).1 id req).map
                    (fun effects => (lookup resources n).2 ++ effects)) := by
  have hfirst : ∀ path n id, parsePath path = Except.ok (n, id) → '/' ∉ n ∧ n ≠ name := by
    intro path n id h
    have hn := (parsePath_inv path n id h).1
    refine ⟨hn, ?_⟩
    intro e
    subst e
    exact hn hslash
  refine ⟨hfirst, ?_⟩
  intro req tail hpath
  obtain ⟨n, i, hn, hname⟩ := exists_split_at_slash name hslash
  have hp : pathOf name tail = '/' :: (n ++ '/' :: (i ++ '/' :: tail)) := by
    simp [pathOf, hname]
  have hparse : parsePath req.Path = Except.ok (n, i ++ '/' :: tail) := by
    rw [hpath, hp]
    exact parsePath_cons_append '/' n _ hn
  refine ⟨n, i ++ '/' :: tail, hparse, hn, (hfirst _ _ _ hparse).2, ?_, ?_⟩
  · rw [hp]
    simp [pathOf]
  · simp only [resourceHandler, hparse, bind, Except.bind, pure, Except.pure, Except.map]

/-- Witness of C19: after `Resource("a/b", fullResource)` the request
`GET /a/b/7` is answered as one for the unknown resource `a`. -/
theorem C19_slash_name_never_found_witness :
    (Resource Server.initial "a/b".toList (some fullResource)).resources "a/b".toList
        = some (some fullResource)
      ∧ resourceHandler (Resource Server.initial "a/b".toList (some fullResource)).resources
          (mkRequest "GET".toList "/a/b/7".toList)
        = Except.ok (Effect.fprintf "resource a not found\n".toList :: NotImplemented)
      ∧ ∀ path n id, parsePath path = Except.ok (n, id) → '/' ∉ n ∧ n ≠ "a/b".toList :=
  ⟨by decide, by decide,
   (C19_slash_name_never_found
      (Resource Server.initial "a/b".toList (some fullResource)).resources "a/b".toList
      (by decide)).1⟩

/-- C20: for bodies added in order to a fresh `NewSnipsCollection` (as many as
the int range of the machine can count), the i-th `Add` returns id i, the ids
held are pairwise distinct, non-negative and below `nextId`, `WithId(i)`
returns the snip with `Id` i and the i-th body together with true for every i
below the number of adds and nil with false for every other id, and `All` has
one entry per add, the i-th being the snip of the i-th add. -/
theorem C20_collection_ids (bits : Nat) (bodies : List Str)
    (hfits : (bodies.length : Int) < 2 ^ (bits - 1)) :
    (addAll bits NewSnipsCollection bodies).2
        = (List.range bodies.length).map (fun (i : Nat) => (i : Int))
      ∧ (addAll bits NewSnipsCollection bodies).1.nextId = (bodies.length : Int)
      ∧ (addAll bits NewSnipsCollection bodies).1.ids.Nodup
      ∧ (∀ id ∈ (addAll bits NewSnipsCollection bodies).1.ids,
          0 ≤ id ∧ id < (addAll bits NewSnipsCollection bodies).1.nextId)
      ∧ (∀ (i : Nat) (h : i < bodies.length),
          (addAll bits NewSnipsCollection bodies).1.WithId (i : Int)
            = (some ⟨(i : Int), bodies.get ⟨i, h⟩⟩, true))
      ∧ (∀ id : Int, (id < 0 ∨ (bodies.length : Int) ≤ id) →
          (addAll bits NewSnipsCollection bodies).1.WithId id = (none, false))
      ∧ (addAll bits NewSnipsCollection bodies).1.All.length = bodies.length
      ∧ (∀ (i : Nat) (h : i < bodies.length),
          (addAll bits NewSnipsCollection bodies).1.All.get? i
            = some (some ⟨(i : Int), bodies.get ⟨i, h⟩⟩)) := by
  have hrun := addAll_fits bits bodies NewSnipsCollection (le_refl _)
    (by simpa [NewSnipsCollection] using hfits)
  simp only [NewSnipsCollection, List.nil_append, zero_add] at hrun
  have hall : ∀ l : List (Option Snip),
      l.map (fun v => match v with
        | some snip => some snip
        | none => none) = l := by
    intro l
    induction l with
    | nil => rfl
    | cons a t ih =>
      cases a <;> simp [ih]
  have hids : (addAll bits NewSnipsCollection bodies).1.ids
      = (List.range bodies.length).map (fun (i : Nat) => (i : Int)) := by
    simp only [NewSnipsCollection, hrun, SnipsCollection.ids, ids_snipsFrom, zero_add]
  refine ⟨?_, ?_, ?_, ?_, ?_, ?_, ?_, ?_⟩
  · simp only [NewSnipsCollection, hrun]
  · simp only [NewSnipsCollection, hrun]
  · rw [hids]
    exact List.Nodup.map (fun a b hab => by exact_mod_cast hab) (List.nodup_range _)
  · intro id hid
    rw [hids] at hid
    simp only [List.mem_map, List.mem_range] at hid
    obtain ⟨i, hi, rfl⟩ := hid
    simp only [NewSnipsCollection, hrun]
    omega
  · intro i h
    have := withIdLoop_hit 0 bodies i h
    simp only [zero_add] at this
    simp only [NewSnipsCollection, hrun, SnipsCollection.WithId, this]
  · intro id h
    have := withIdLoop_miss 0 bodies id (by omega)
    simp only [NewSnipsCollection, hrun, SnipsCollection.WithId, this]
  · simp only [NewSnipsCollection, hrun, SnipsCollection.All, List.length_map,
      snipsFrom_length]
  · intro i h
    have := snipsFrom_get 0 bodies i h
    simp only [zero_add] at this
    simp only [NewSnipsCollection, hrun, SnipsCollection.All, hall, this]

/-- Witness of C20: three adds on a machine with 64-bit ints. -/
theorem C20_collection_ids_witness :
    (addAll 64 NewSnipsCollection ["a".toList, "b".toList, "c".toList]).2 = [0, 1, 2]
      ∧ (addAll 64 NewSnipsCollection ["a".toList, "b".toList, "c".toList]).1.WithId 2
          = (some ⟨2, "c".toList⟩, true)
      ∧ (addAll 64 NewSnipsCollection ["a".toList, "b".toList, "c".toList]).1.WithId 3
          = (none, false) :=
  ⟨(C20_collection_ids 64 ["a".toList, "b".toList, "c".toList] (by decide)).1,
   (C20_collection_ids 64 ["a".toList, "b".toList, "c".toList] (by decide)).2.2.2.2.1 2
      (by decide),
   (C20_collection_ids 64 ["a".toList, "b".toList, "c".toList] (by decide)).2.2.2.2.2.1 3
      (by decide)⟩

end Rest
